import Mathlib

/-!
Verification of the command-bridge and output-normalization logic of
`src/app2.py` (Five9 campaign manager).  The Python functions are embedded
shallowly: JSON-decoded Python values become the inductive `JValue`, Python
dicts become insertion-ordered association lists with unique keys
(`dictInsert` / `dictGet`), and the filesystem state of the install-job slot
becomes the record `InstallFS`.  Python's `str()` on the value shapes that
occur here is modelled by `pyStr` (string repr simplified: no escape
sequences inside nested string reprs, ASCII-only lowercasing/whitespace —
none of the verified claims touch those corners).
-/

/-- A JSON-decoded Python value as produced by `json.loads` in `app2.py`:
`None`, `bool`, `int`, `str`, `list`, `dict`.  JSON floats are not modelled
(campaign state/type arrive as small integers or strings). -/
inductive JValue where
  | jnull : JValue
  | jbool : Bool → JValue
  | jint : Int → JValue
  | jstr : String → JValue
  | jarr : List JValue → JValue
  | jobj : List (String × JValue) → JValue

/-- A Python dict decoded from JSON: insertion-ordered key/value pairs. -/
abbrev PyRecord := List (String × JValue)

/-- Python `d.get(k)`: the value stored at `k` (dicts keep keys unique, so
the first match is the binding). -/
def dictGet (m : List (String × α)) (k : String) : Option α :=
  (m.find? (fun p => p.1 == k)).map (fun p => p.2)

/-- Python `d[k] = v`: overwrite in place when `k` is present (insertion
order kept), append otherwise.  Last write wins. -/
def dictInsert (m : List (String × α)) (k : String) (v : α) : List (String × α) :=
  if m.any (fun p => p.1 == k) then
    m.map (fun p => if p.1 == k then (k, v) else p)
  else m ++ [(k, v)]

/-- Python truthiness of a JSON-decoded value. -/
def pyTruthy : JValue → Bool
  | JValue.jnull => false
  | JValue.jbool b => b
  | JValue.jint n => n != 0
  | JValue.jstr s => s != ""
  | JValue.jarr l => !l.isEmpty
  | JValue.jobj l => !l.isEmpty

/-- Python truthiness of an optional lookup result (`None` is falsy). -/
def pyTruthyOpt : Option JValue → Bool
  | some v => pyTruthy v
  | none => false

/-- Python `a or b` for `a` an optional lookup result. -/
def pyOr (a : Option JValue) (b : JValue) : JValue :=
  match a with
  | some v => if pyTruthy v then v else b
  | none => b

mutual
/-- Python `repr` of a JSON-decoded value (string escapes simplified). -/
def pyRepr : JValue → String
  | JValue.jnull => "None"
  | JValue.jbool b => if b then "True" else "False"
  | JValue.jint n => toString n
  | JValue.jstr s => "'" ++ s ++ "'"
  | JValue.jarr l => "[" ++ pyReprArr l ++ "]"
  | JValue.jobj l => "\x7b" ++ pyReprObj l ++ "\x7d"

/-- Comma-separated `repr` of list elements. -/
def pyReprArr : List JValue → String
  | [] => ""
  | [v] => pyRepr v
  | v :: vs => pyRepr v ++ ", " ++ pyReprArr vs

/-- Comma-separated `repr` of dict items. -/
def pyReprObj : List (String × JValue) → String
  | [] => ""
  | [kv] => "'" ++ kv.1 ++ "': " ++ pyRepr kv.2
  | kv :: kvs => "'" ++ kv.1 ++ "': " ++ pyRepr kv.2 ++ ", " ++ pyReprObj kvs
end

/-- Python `str()` of a JSON-decoded value. -/
def pyStr : JValue → String
  | JValue.jstr s => s
  | v => pyRepr v

/-- Python `str()` of an optional lookup result (`str(None) = "None"`). -/
def pyStrOpt : Option JValue → String
  | some v => pyStr v
  | none => "None"

/-! ### `parse_json_output` (app2.py lines 74-80)

`json.loads` is standard-library code, so the decoder is a parameter
`loads : String → Option JValue`; `none` models `json.JSONDecodeError`,
which the source catches. -/

/-- `parse_json_output`: empty input short-circuits to `[]`; a decode error
yields `[]`; a dict is wrapped in a singleton list; a list passes through;
any other decoded shape yields `[]`. -/
def parse_json_output (raw : String) (loads : String → Option JValue) : List JValue :=
  if raw = "" then []
  else
    match loads raw with
    | none => []
    | some parsed =>
      match parsed with
      | JValue.jobj o => [JValue.jobj o]
      | JValue.jarr l => l
      | _ => []

/-- A concrete decoder used to instantiate theorems about
`parse_json_output` on closed inputs: it decodes four fixed texts to an
object, an array, a number and a decode failure. -/
def loadsExample : String → Option JValue :=
  fun s =>
    if s = "obj" then some (JValue.jobj [("a", JValue.jint 1)])
    else if s = "arr" then some (JValue.jarr [JValue.jobj [("a", JValue.jint 1)], JValue.jobj [("a", JValue.jint 2)]])
    else if s = "num" then some (JValue.jint 5)
    else none

/-! ### `parse_campaigns_json` (app2.py lines 82-93) -/

/-- `STATE_MAP` from the source. -/
def STATE_MAP : List (Int × String) :=
  [(0, "Not Running"), (1, "Starting"), (2, "Running"), (3, "Stopping")]

/-- `TYPE_MAP` from the source. -/
def TYPE_MAP : List (Int × String) :=
  [(0, "Inbound"), (1, "Outbound"), (2, "AutoDial")]

/-- Python `k.lower()` (ASCII; Python also lowercases non-ASCII letters,
which no claim touches). -/
def strLower (s : String) : String :=
  String.mk (s.data.map Char.toLower)

/-- The dict comprehension `{k.lower(): v for k, v in rec.items()}`:
fold the items left to right, lowercasing keys; a later item overwrites an
earlier one whose key lowercases the same. -/
def lowerKeys (rec : PyRecord) : PyRecord :=
  rec.foldl (fun acc kv => dictInsert acc (strLower kv.1) kv.2) []

/-- Python `M.get(x, default)` for an int-keyed dict: a stored `int` key
matches `jint n` by value and — because Python `bool` compares and hashes
equal to `0`/`1` — also matches `jbool b`; every other shape misses. -/
def intMapGet (m : List (Int × String)) (v : Option JValue) (default : String) : String :=
  match v with
  | some (JValue.jint n) => ((m.find? (fun p => p.1 == n)).map (fun p => p.2)).getD default
  | some (JValue.jbool b) =>
      ((m.find? (fun p => p.1 == (if b then (1 : Int) else 0))).map (fun p => p.2)).getD default
  | _ => default

/-- One row of `parse_campaigns_json`.  The third source column is named
`Type`, a Lean keyword, so the field is `CType` here. -/
structure CampaignRow where
  Name : JValue
  State : String
  CType : String

/-- The body of the loop in `parse_campaigns_json` for one record. -/
def campaignRow (rec : PyRecord) : CampaignRow :=
  let lr := lowerKeys rec
  { Name := (dictGet lr "name").getD (JValue.jstr "")
  , State := intMapGet STATE_MAP (dictGet lr "state") (pyStrOpt (dictGet lr "state"))
  , CType := intMapGet TYPE_MAP (dictGet lr "type") (pyStrOpt (dictGet lr "type")) }

/-- `parse_campaigns_json`: normalize every record. -/
def parse_campaigns_json (records : List PyRecord) : List CampaignRow :=
  records.map campaignRow

/-! ### `parse_domain_lists_json` (app2.py lines 95-99) -/

/-- A pandas DataFrame, reduced to what the source observes: the column
labels and the list of rows. -/
structure DFrame where
  cols : List String
  rows : List PyRecord

/-- `pd.DataFrame.from_records` column inference: the union of the record
keys in order of first appearance. -/
def unionKeys (records : List PyRecord) : List String :=
  records.foldl
    (fun acc r => r.foldl (fun a kv => if a.contains kv.1 then a else a ++ [kv.1]) acc) []

/-- The sort key of `sort_values(by="name")`: the string stored at `"name"`. -/
def nameKey (r : PyRecord) : Option String :=
  match dictGet r "name" with
  | some (JValue.jstr s) => some s
  | _ => none

/-- The sort key with a default (only used on records where `nameKey` is
`some`). -/
def nameKeyD (r : PyRecord) : String := (nameKey r).getD ""

/-- Lexicographic comparison of character lists by code point: how Python
(and hence pandas) orders `str` values. -/
def lexLe : List Char → List Char → Bool
  | [], _ => true
  | _ :: _, [] => false
  | a :: as, b :: bs =>
    if a.toNat < b.toNat then true
    else if b.toNat < a.toNat then false
    else lexLe as bs

/-- Row comparison used by `sort_values(by="name", ascending=True)`. -/
def recNameLe (a b : PyRecord) : Bool :=
  lexLe (nameKeyD a).data (nameKeyD b).data

/-- Insert into a sorted list, keeping the comparison's order. -/
def insertLe (le : α → α → Bool) (x : α) : List α → List α
  | [] => [x]
  | y :: ys => if le x y then x :: y :: ys else y :: insertLe le x ys

/-- Insertion sort (the model of the pandas sort; the claim only constrains
the result to be ascending, which any correct sort satisfies). -/
def sortLe (le : α → α → Bool) : List α → List α
  | [] => []
  | x :: xs => insertLe le x (sortLe le xs)

/-- `parse_domain_lists_json`: the empty input yields an empty frame with
columns `["name", "size"]`; otherwise the rows are sorted ascending by the
`"name"` column.  `none` models pandas raising (`KeyError` on a missing
`name` column, `TypeError` on non-string keys): the model is conservative
and fails whenever some record lacks a string `"name"` value. -/
def parse_domain_lists_json (records : List PyRecord) : Option DFrame :=
  if records.isEmpty then some ⟨["name", "size"], []⟩
  else if records.all (fun r => (nameKey r).isSome) then
    some ⟨unionKeys records, sortLe recNameLe records⟩
  else none

/-! ### `parse_action_results` (app2.py lines 101-109) -/

/-- `str(record.get("Identifier", "(unknown)"))`. -/
def identifierOf (rec : PyRecord) : String :=
  pyStr ((dictGet rec "Identifier").getD (JValue.jstr "(unknown)"))

/-- Truthiness of `record.get("Success")`. -/
def successOf (rec : PyRecord) : Bool :=
  pyTruthyOpt (dictGet rec "Success")

/-- `str(record.get("Error") or "Unknown error")`. -/
def errorOf (rec : PyRecord) : String :=
  pyStr (pyOr (dictGet rec "Error") (JValue.jstr "Unknown error"))

/-- The loop body of `parse_action_results`. -/
def arStep (acc : List String × List (String × String)) (rec : PyRecord) :
    List String × List (String × String) :=
  let name := identifierOf rec
  if successOf rec then
    (if acc.1.contains name then acc.1 else acc.1 ++ [name], acc.2)
  else
    (acc.1, dictInsert acc.2 name (errorOf rec))

/-- `parse_action_results`: fold the records into the pair
(success list, failure dict). -/
def parse_action_results (records : List PyRecord) :
    List String × List (String × String) :=
  records.foldl arStep ([], [])

/-! ### Specification-level versions of `parse_action_results`

These two definitions follow the spec's words, not the source: the success
side is an order-preserving, de-duplicating accumulation over the records
with a truthy success flag; the failure side is a last-write-wins map from
identifier to error message over the remaining records.  The claim is that
the source's single interleaved fold computes exactly this pair. -/

/-- Spec wording: a truthy success flag appends the identifier if it is not
already present. -/
def successStep (acc : List String) (rec : PyRecord) : List String :=
  if successOf rec then
    (if acc.contains (identifierOf rec) then acc else acc ++ [identifierOf rec])
  else acc

/-- Spec wording: a non-truthy record maps its identifier to its error
message, last write wins. -/
def failureStep (acc : List (String × String)) (rec : PyRecord) : List (String × String) :=
  if successOf rec then acc else dictInsert acc (identifierOf rec) (errorOf rec)

/-- The success list, built on its own as the spec describes it. -/
def successListSpec (records : List PyRecord) : List String :=
  records.foldl successStep []

/-- The failure map, built on its own as the spec describes it. -/
def failureMapSpec (records : List PyRecord) : List (String × String) :=
  records.foldl failureStep []

/-! ### `ps_escape` and `run_powershell_command` (app2.py lines 31-46) -/

/-- The character-level core of `value.replace("'", "''")`: every single
quote is doubled, every other character is kept. -/
def escQuotes : List Char → List Char
  | [] => []
  | c :: cs => (if c = '\'' then ['\'', '\''] else [c]) ++ escQuotes cs

/-- Python `value or ""` for an optional string (`None` and `""` are
falsy). -/
def pyOrEmptyStr : Option String → String
  | none => ""
  | some s => if s = "" then "" else s

/-- `ps_escape`: `(value or "").replace("'", "''")`. -/
def ps_escape (value : Option String) : String :=
  String.mk (escQuotes (pyOrEmptyStr value).data)

/-- The authentication preamble of `run_powershell_command` up to and
including the opening quote of the password literal. -/
def tplA : String :=
  "\n$ErrorActionPreference = 'Stop'\n$secpasswd = ConvertTo-SecureString '"

/-- The template text from the closing quote of the password literal up to
and including the opening quote of the username literal. -/
def tplB : String :=
  "' -AsPlainText -Force\n$creds = New-Object System.Management.Automation.PSCredential ('"

/-- The template text from the closing quote of the username literal to the
end of the preamble. -/
def tplC : String :=
  "', $secpasswd)\nConnect-Five9AdminWebService -Credential $creds\n"

/-- The generated script of `run_powershell_command` (the f-string at lines
36-42), as a character list: preamble with the escaped credentials spliced
into the quoted literals, then the caller's command body, then a newline. -/
def ps_script (username password command : String) : List Char :=
  tplA.data ++ (ps_escape (some password)).data ++ tplB.data
    ++ (ps_escape (some username)).data ++ tplC.data ++ command.data ++ ['\n']

/-- PowerShell scanner for the body of a single-quoted string literal,
starting just after the opening quote: `''` is an escaped quote belonging
to the literal, a lone `'` closes it.  Returns the literal's content
(unescaped) and the text after the closing quote, or `none` when the
literal is unterminated. -/
def sqBody : List Char → Option (List Char × List Char)
  | [] => none
  | c :: cs =>
    if c = '\'' then
      match cs with
      | [] => some ([], [])
      | c2 :: cs2 =>
        if c2 = '\'' then (sqBody cs2).map (fun p => ('\'' :: p.1, p.2))
        else some ([], cs)
    else (sqBody cs).map (fun p => (c :: p.1, p.2))

/-! ### The install-job slot (app2.py lines 15-19 and 49-71)

The three artifact files (plus the generated wrapper script) are the whole
state the job subsystem reads and writes; they are modelled as a record of
optional file contents (`none` = the file does not exist).  Launching the
detached process itself touches none of these files before
`start_install_detached` returns. -/

/-- The filesystem state of the install-job slot. -/
structure InstallFS where
  stdoutFile : Option String
  stderrFile : Option String
  lockFile : Option String
  scriptFile : Option String

/-- The result shape of `get_install_status`. -/
structure InstallStatus where
  running : Bool
  stdout : String
  stderr : String
  done : Bool

/-- ASCII whitespace as recognised by Python `str.strip()` (Python also
strips some Unicode spaces; not modelled). -/
def isPySpace (c : Char) : Bool :=
  c = ' ' || c = '\t' || c = '\n' || c = '\r' || c = '\x0b' || c = '\x0c'

/-- Python `s.strip()`: drop leading and trailing whitespace. -/
def pyStrip (s : String) : String :=
  String.mk (((s.data.dropWhile isPySpace).reverse.dropWhile isPySpace).reverse)

/-- The `try/catch/finally` wrapper script that `start_install_detached`
writes for the detached process (paths shown relative to the install
directory; the `tempfile.gettempdir()` prefix is omitted from the model). -/
def wrapperScript (command : String) : String :=
  "try \x7b " ++ command ++ " | Out-File -FilePath 'stdout.txt' -Encoding utf8 \x7d "
    ++ "catch \x7b $_.Exception.Message | Out-File -FilePath 'stderr.txt' -Encoding utf8 \x7d\n"
    ++ "finally \x7b Remove-Item -Path 'running.lock' -Force -ErrorAction SilentlyContinue \x7d"

/-- `start_install_detached`: truncate both capture files to `""`, write
`"running"` into the lock marker, write the wrapper script, then launch the
detached process (which changes none of these files before the call
returns). -/
def start_install_detached (fs : InstallFS) (command : String) : InstallFS :=
  { fs with
    stdoutFile := some ""
    stderrFile := some ""
    lockFile := some "running"
    scriptFile := some (wrapperScript command) }

/-- `get_install_status`: a pure read of the three artifact files. -/
def get_install_status (fs : InstallFS) : InstallStatus :=
  { running := fs.lockFile.isSome
  , stdout := match fs.stdoutFile with | some s => pyStrip s | none => ""
  , stderr := match fs.stderrFile with | some s => pyStrip s | none => ""
  , done := !fs.lockFile.isSome && (fs.stdoutFile.isSome || fs.stderrFile.isSome) }

/-! ### Helper lemmas about the dict model -/

theorem dictGet_cons {α : Type} (kv : String × α) (tl : List (String × α)) (k : String) :
    dictGet (kv :: tl) k = if kv.1 == k then some kv.2 else dictGet tl k := by
  by_cases hkv : (kv.1 == k) = true
  · simp [dictGet, List.find?_cons_of_pos _ hkv, hkv]
  · simp [dictGet, List.find?_cons_of_neg _ hkv, hkv]

theorem dictGet_eq_none {α : Type} (m : List (String × α)) (k : String)
    (h : ∀ kv ∈ m, kv.1 ≠ k) : dictGet m k = none := by
  induction m with
  | nil => rfl
  | cons kv tl ih =>
    rw [dictGet_cons]
    have hk : ¬ (kv.1 == k) = true := by
      simp only [beq_iff_eq]
      exact h kv (List.mem_cons_self kv tl)
    simp only [hk, if_false]
    exact ih (fun p hp => h p (List.mem_cons_of_mem kv hp))

theorem dictGet_map_overwrite_ne {α : Type} (kIns k : String) (v : α) (h : kIns ≠ k) :
    ∀ m : List (String × α),
      dictGet (m.map (fun p => if p.1 == kIns then (kIns, v) else p)) k = dictGet m k := by
  intro m
  induction m with
  | nil => rfl
  | cons kv tl ih =>
    rw [List.map_cons, dictGet_cons, dictGet_cons]
    by_cases hkv : (kv.1 == kIns) = true
    · have h1 : ¬ ((kIns, v).1 == k) = true := by simp only [beq_iff_eq]; exact h
      have h2 : ¬ (kv.1 == k) = true := by
        simp only [beq_iff_eq] at hkv ⊢
        rw [hkv]; exact h
      simp only [hkv, if_true, h1, h2, if_false]
      exact ih
    · rw [Bool.not_eq_true] at hkv
      by_cases h2 : (kv.1 == k) = true
      · simp [hkv, h2]
      · rw [Bool.not_eq_true] at h2
        simp only [hkv, Bool.false_eq_true, if_false, h2]
        exact ih

theorem dictGet_append_miss {α : Type} (kIns k : String) (v : α) (h : kIns ≠ k) :
    ∀ m : List (String × α), dictGet (m ++ [(kIns, v)]) k = dictGet m k := by
  intro m
  induction m with
  | nil =>
    rw [List.nil_append, dictGet_cons]
    have h1 : ¬ ((kIns, v).1 == k) = true := by simp only [beq_iff_eq]; exact h
    simp only [h1, if_false]
    rfl
  | cons kv tl ih =>
    rw [List.cons_append, dictGet_cons, dictGet_cons]
    by_cases h2 : (kv.1 == k) = true
    · simp only [h2, if_true]
    · simp only [h2, if_false]
      exact ih

theorem dictGet_insert_ne {α : Type} (m : List (String × α)) (kIns k : String) (v : α)
    (h : kIns ≠ k) : dictGet (dictInsert m kIns v) k = dictGet m k := by
  unfold dictInsert
  by_cases hc : (m.any (fun p => p.1 == kIns)) = true
  · simp only [hc, if_true]
    exact dictGet_map_overwrite_ne kIns k v h m
  · simp only [hc, if_false]
    exact dictGet_append_miss kIns k v h m

theorem dictGet_foldl_lower_eq_none (k : String) :
    ∀ (rec : PyRecord) (m : PyRecord), (∀ kv ∈ rec, strLower kv.1 ≠ k) →
      dictGet m k = none →
      dictGet (rec.foldl (fun acc kv => dictInsert acc (strLower kv.1) kv.2) m) k = none := by
  intro rec
  induction rec with
  | nil => intro m _ hm; exact hm
  | cons kv tl ih =>
    intro m h hm
    simp only [List.foldl_cons]
    exact ih _ (fun p hp => h p (List.mem_cons_of_mem kv hp))
      (by rw [dictGet_insert_ne _ _ _ _ (h kv (List.mem_cons_self kv tl))]; exact hm)

theorem dictGet_lowerKeys_eq_none (rec : PyRecord) (k : String)
    (h : ∀ kv ∈ rec, strLower kv.1 ≠ k) : dictGet (lowerKeys rec) k = none :=
  dictGet_foldl_lower_eq_none k rec [] h rfl

theorem arStep_eq (acc : List String × List (String × String)) (rec : PyRecord) :
    arStep acc rec = (successStep acc.1 rec, failureStep acc.2 rec) := by
  unfold arStep successStep failureStep
  by_cases h : successOf rec = true <;> simp [h]

theorem foldl_arStep_split :
    ∀ (records : List PyRecord) (s : List String) (f : List (String × String)),
      records.foldl arStep (s, f) = (records.foldl successStep s, records.foldl failureStep f) := by
  intro records
  induction records with
  | nil => intro s f; rfl
  | cons r tl ih =>
    intro s f
    rw [List.foldl_cons, arStep_eq]
    exact ih _ _

theorem nodup_foldl_successStep :
    ∀ (records : List PyRecord) (s : List String), s.Nodup →
      (records.foldl successStep s).Nodup := by
  intro records
  induction records with
  | nil => intro s hs; exact hs
  | cons r tl ih =>
    intro s hs
    rw [List.foldl_cons]
    apply ih
    unfold successStep
    by_cases hsucc : successOf r = true
    · simp only [hsucc, if_true]
      by_cases hc : (s.contains (identifierOf r)) = true
      · simp only [hc, if_true]; exact hs
      · simp only [hc, if_false]
        have hmem : identifierOf r ∉ s := by
          intro hm
          exact absurd (List.elem_iff.mpr hm) (by simpa using hc)
        simp [List.nodup_append, hs, hmem]
    · simp only [hsucc, if_false]; exact hs

/-! ### Helper lemmas about `escQuotes` and the single-quote scanner -/

theorem escQuotes_count_quote : ∀ s : List Char,
    (escQuotes s).count '\'' = 2 * s.count '\'' := by
  intro s
  induction s with
  | nil => rfl
  | cons c cs ih =>
    by_cases h : c = '\''
    · subst h
      simp [escQuotes, List.count_cons, ih]
      omega
    · simp [escQuotes, h, List.count_cons, ih]

theorem escQuotes_count_other (c : Char) (h : c ≠ '\'') : ∀ s : List Char,
    (escQuotes s).count c = s.count c := by
  intro s
  induction s with
  | nil => rfl
  | cons x xs ih =>
    by_cases hx : x = '\''
    · subst hx
      have : ¬ ('\'' == c) = true := by
        simp only [beq_iff_eq]
        exact fun he => h he.symm
      simp [escQuotes, List.count_cons, ih, this]
    · simp [escQuotes, hx, List.count_cons, ih]

theorem sqBody_escQuotes : ∀ (s : List Char) (c : Char) (rest : List Char), c ≠ '\'' →
    sqBody (escQuotes s ++ '\'' :: c :: rest) = some (s, c :: rest) := by
  intro s
  induction s with
  | nil =>
    intro c rest hc
    simp [escQuotes, sqBody, hc]
  | cons x xs ih =>
    intro c rest hc
    by_cases hx : x = '\''
    · subst hx
      simp [escQuotes, sqBody, ih c rest hc]
    · have hstep : escQuotes (x :: xs) = x :: escQuotes xs := by simp [escQuotes, hx]
      rw [hstep, List.cons_append, sqBody.eq_def]
      simp only [hx, if_false]
      rw [ih c rest hc]
      rfl

/-! ### Helper lemmas about the sort model -/

theorem insertLe_perm (le : α → α → Bool) (x : α) :
    ∀ l : List α, (insertLe le x l).Perm (x :: l) := by
  intro l
  induction l with
  | nil => exact List.Perm.refl _
  | cons y ys ih =>
    unfold insertLe
    by_cases h : le x y = true
    · simp only [h, if_true]
      exact List.Perm.refl _
    · simp only [h, if_false]
      exact (ih.cons y).trans (List.Perm.swap x y ys)

theorem sortLe_perm (le : α → α → Bool) : ∀ l : List α, (sortLe le l).Perm l := by
  intro l
  induction l with
  | nil => exact List.Perm.refl _
  | cons x xs ih =>
    unfold sortLe
    exact (insertLe_perm le x (sortLe le xs)).trans (ih.cons x)

theorem insertLe_pairwise (le : α → α → Bool)
    (htrans : ∀ a b c, le a b = true → le b c = true → le a c = true)
    (htot : ∀ a b, le a b = true ∨ le b a = true) (x : α) :
    ∀ l : List α, List.Pairwise (fun a b => le a b = true) l →
      List.Pairwise (fun a b => le a b = true) (insertLe le x l) := by
  intro l
  induction l with
  | nil => intro _; simp [insertLe]
  | cons y ys ih =>
    intro hp
    rcases List.pairwise_cons.mp hp with ⟨hy, hys⟩
    unfold insertLe
    by_cases h : le x y = true
    · simp only [h, if_true]
      refine List.pairwise_cons.mpr ⟨?_, hp⟩
      intro z hz
      rcases List.mem_cons.mp hz with rfl | hz2
      · exact h
      · exact htrans x y z h (hy z hz2)
    · simp only [h, if_false]
      refine List.pairwise_cons.mpr ⟨?_, ih hys⟩
      intro z hz
      have hmem : z = x ∨ z ∈ ys := by
        have := (insertLe_perm le x ys).mem_iff.mp hz
        simpa using this
      rcases hmem with hzx | hz2
      · rw [hzx]
        rcases htot x y with hxy | hyx
        · exact absurd hxy h
        · exact hyx
      · exact hy z hz2

theorem sortLe_pairwise (le : α → α → Bool)
    (htrans : ∀ a b c, le a b = true → le b c = true → le a c = true)
    (htot : ∀ a b, le a b = true ∨ le b a = true) :
    ∀ l : List α, List.Pairwise (fun a b => le a b = true) (sortLe le l) := by
  intro l
  induction l with
  | nil => simp [sortLe]
  | cons x xs ih =>
    unfold sortLe
    exact insertLe_pairwise le htrans htot x _ ih

theorem lexLe_total : ∀ as bs : List Char, lexLe as bs = true ∨ lexLe bs as = true := by
  intro as
  induction as with
  | nil => intro bs; left; rfl
  | cons a as ih =>
    intro bs
    cases bs with
    | nil => right; rfl
    | cons b bs =>
      by_cases h1 : a.toNat < b.toNat
      · left; simp [lexLe, h1]
      · by_cases h2 : b.toNat < a.toNat
        · right; simp [lexLe, h2]
        · rcases ih bs with h | h
          · left; simp [lexLe, h1, h2, h]
          · right; simp [lexLe, h1, h2, h]

theorem lexLe_trans : ∀ as bs cs : List Char,
    lexLe as bs = true → lexLe bs cs = true → lexLe as cs = true := by
  intro as
  induction as with
  | nil => intro bs cs _ _; rfl
  | cons a as ih =>
    intro bs cs h1 h2
    cases bs with
    | nil => exact absurd h1 (by simp [lexLe])
    | cons b bs =>
      cases cs with
      | nil => exact absurd h2 (by simp [lexLe])
      | cons c cs =>
        rw [lexLe] at h1 h2 ⊢
        by_cases hab : a.toNat < b.toNat
        · by_cases hbc : b.toNat < c.toNat
          · simp [Nat.lt_trans hab hbc]
          · by_cases hcb : c.toNat < b.toNat
            · simp [hbc, hcb] at h2
            · have : a.toNat < c.toNat := by omega
              simp [this]
        · by_cases hba : b.toNat < a.toNat
          · simp [hab, hba] at h1
          · simp only [hab, if_false, hba] at h1
            by_cases hbc : b.toNat < c.toNat
            · have : a.toNat < c.toNat := by omega
              simp [this]
            · by_cases hcb : c.toNat < b.toNat
              · simp [hbc, hcb] at h2
              · simp only [hbc, if_false, hcb] at h2
                have hac : ¬ a.toNat < c.toNat := by omega
                have hca : ¬ c.toNat < a.toNat := by omega
                simp only [hac, if_false, hca]
                exact ih bs cs h1 h2

theorem ps_escape_some_data (s : String) :
    (ps_escape (some s)).data = escQuotes s.data := by
  unfold ps_escape pyOrEmptyStr
  by_cases h : s = ""
  · subst h; rfl
  · simp [h]

/-! ### Claim theorems -/

/-- C1: `parse_action_results` partitions its records: each record with a
truthy `"Success"` flag contributes its identifier to the success list only
if it is not already present (order-preserving, de-duplicated), and each
other record maps its identifier to its error message in the failure map
(defaulting to `"Unknown error"` for an absent or falsy message, with
last-write-wins on a repeated failing identifier); on the spec's four-record
example the result is `(["c1"], {"c2": "timeout", "c3": "Unknown error"})`. -/
theorem parse_action_results_partition (records : List PyRecord) :
    parse_action_results records = (successListSpec records, failureMapSpec records)
    ∧ (parse_action_results records).1.Nodup
    ∧ parse_action_results
        [[("Identifier", JValue.jstr "c1"), ("Success", JValue.jbool true)],
         [("Identifier", JValue.jstr "c1"), ("Success", JValue.jbool true)],
         [("Identifier", JValue.jstr "c2"), ("Success", JValue.jbool false),
          ("Error", JValue.jstr "timeout")],
         [("Identifier", JValue.jstr "c3"), ("Success", JValue.jbool false)]]
      = (["c1"], [("c2", "timeout"), ("c3", "Unknown error")]) := by
  refine ⟨foldl_arStep_split records [] [], ?_, rfl⟩
  unfold parse_action_results
  rw [foldl_arStep_split]
  exact nodup_foldl_successStep records [] List.nodup_nil

/-- C2: `parse_json_output` is total (the embedding returns a plain list on
every input): the empty string and a failed decode yield `[]`, a decoded
object yields a one-element list, a decoded array passes through, and any
other decoded shape yields `[]`. -/
theorem parse_json_output_total_cases (loads : String → Option JValue) (raw : String) :
    parse_json_output "" loads = []
    ∧ (raw ≠ "" → loads raw = none → parse_json_output raw loads = [])
    ∧ (∀ o, raw ≠ "" → loads raw = some (JValue.jobj o) →
        parse_json_output raw loads = [JValue.jobj o])
    ∧ (∀ l, raw ≠ "" → loads raw = some (JValue.jarr l) →
        parse_json_output raw loads = l)
    ∧ (∀ v, raw ≠ "" → loads raw = some v →
        (∀ o, v ≠ JValue.jobj o) → (∀ l, v ≠ JValue.jarr l) →
        parse_json_output raw loads = []) := by
  refine ⟨rfl, ?_, ?_, ?_, ?_⟩
  · intro hr hl
    simp [parse_json_output, hr, hl]
  · intro o hr hl
    simp [parse_json_output, hr, hl]
  · intro l hr hl
    simp [parse_json_output, hr, hl]
  · intro v hr hl ho hl2
    unfold parse_json_output
    rw [if_neg hr, hl]
    cases v with
    | jobj o => exact absurd rfl (ho o)
    | jarr l => exact absurd rfl (hl2 l)
    | jnull => rfl
    | jbool b => rfl
    | jint n => rfl
    | jstr s => rfl

/-- Witness for C2: the cases of `parse_json_output_total_cases`
instantiated at closed inputs through the concrete decoder
`loadsExample`. -/
theorem parse_json_output_total_cases_witness :
    parse_json_output "" loadsExample = []
    ∧ parse_json_output "not json" loadsExample = []
    ∧ parse_json_output "obj" loadsExample = [JValue.jobj [("a", JValue.jint 1)]]
    ∧ parse_json_output "arr" loadsExample
        = [JValue.jobj [("a", JValue.jint 1)], JValue.jobj [("a", JValue.jint 2)]]
    ∧ parse_json_output "num" loadsExample = [] := by
  refine ⟨(parse_json_output_total_cases loadsExample "").1, ?_, ?_, ?_, ?_⟩
  · exact (parse_json_output_total_cases loadsExample "not json").2.1 (by decide) rfl
  · exact (parse_json_output_total_cases loadsExample "obj").2.2.1
      [("a", JValue.jint 1)] (by decide) rfl
  · exact (parse_json_output_total_cases loadsExample "arr").2.2.2.1
      [JValue.jobj [("a", JValue.jint 1)], JValue.jobj [("a", JValue.jint 2)]] (by decide) rfl
  · exact (parse_json_output_total_cases loadsExample "num").2.2.2.2
      (JValue.jint 5) (by decide) rfl (fun o h => nomatch h) (fun l h => nomatch h)

/-- C6: `start_install_detached` resets the job slot: both capture files are
truncated to the empty string, the lock marker holds `"running"`, and the
status probe reports `running = true` immediately after the call (before the
detached job completes). -/
theorem start_install_detached_resets (fs : InstallFS) (cmd : String) :
    (start_install_detached fs cmd).stdoutFile = some ""
    ∧ (start_install_detached fs cmd).stderrFile = some ""
    ∧ (start_install_detached fs cmd).lockFile = some "running"
    ∧ (get_install_status (start_install_detached fs cmd)).running = true :=
  ⟨rfl, rfl, rfl, rfl⟩

/-- Counterexample for C7 as stated: with the stdout capture file holding
`" x "`, the status probe reports `"x"`, not the file's contents (the source
applies `.strip()` to what it reads). -/
theorem get_install_status_strip_counterexample :
    (get_install_status ⟨some " x ", none, none, none⟩).stdout = "x"
    ∧ (get_install_status ⟨some " x ", none, none, none⟩).stdout ≠ " x " :=
  ⟨rfl, by decide⟩

/-- C7 (amended): `get_install_status` is a pure read: `running` iff the
lock marker exists, `done` iff the lock marker is absent and at least one
capture file exists, and stdout/stderr are the whitespace-trimmed contents
of the capture files (empty string when absent). -/
theorem get_install_status_reads (fs : InstallFS) :
    ((get_install_status fs).running = true ↔ fs.lockFile.isSome = true)
    ∧ ((get_install_status fs).done = true ↔
        (fs.lockFile = none ∧ (fs.stdoutFile.isSome = true ∨ fs.stderrFile.isSome = true)))
    ∧ (get_install_status fs).stdout
        = (match fs.stdoutFile with | some s => pyStrip s | none => "")
    ∧ (get_install_status fs).stderr
        = (match fs.stderrFile with | some s => pyStrip s | none => "") := by
  obtain ⟨so, se, lk, sc⟩ := fs
  refine ⟨Iff.rfl, ?_, rfl, rfl⟩
  cases lk <;> simp [get_install_status]

/-- C8: `ps_escape` accepts `None` and the empty string, returning the empty
string for both rather than raising. -/
theorem ps_escape_none_empty :
    ps_escape none = "" ∧ ps_escape (some "") = "" :=
  ⟨rfl, rfl⟩

/-- C9: a record none of whose keys lowercases to `name`, `state` or `type`
normalizes to `Name = ""` and the stringified missing value `"None"` for
both `State` and `Type` (which are strings by construction), rather than an
error. -/
theorem parse_campaigns_json_missing_fields (rec : PyRecord)
    (h : ∀ kv ∈ rec,
      strLower kv.1 ≠ "name" ∧ strLower kv.1 ≠ "state" ∧ strLower kv.1 ≠ "type") :
    campaignRow rec = ⟨JValue.jstr "", "None", "None"⟩
    ∧ parse_campaigns_json [rec] = [⟨JValue.jstr "", "None", "None"⟩] := by
  have hn := dictGet_lowerKeys_eq_none rec "name" (fun kv hkv => (h kv hkv).1)
  have hs := dictGet_lowerKeys_eq_none rec "state" (fun kv hkv => (h kv hkv).2.1)
  have ht := dictGet_lowerKeys_eq_none rec "type" (fun kv hkv => (h kv hkv).2.2)
  have h1 : campaignRow rec = ⟨JValue.jstr "", "None", "None"⟩ := by
    simp [campaignRow, hn, hs, ht, intMapGet, pyStrOpt]
  exact ⟨h1, by simp [parse_campaigns_json, h1]⟩

/-- Witness for C9 at the concrete record `{"Foo": 1}`. -/
theorem parse_campaigns_json_missing_fields_witness :
    campaignRow [("Foo", JValue.jint 1)] = ⟨JValue.jstr "", "None", "None"⟩ :=
  (parse_campaigns_json_missing_fields [("Foo", JValue.jint 1)] (by decide)).1

/-- C10: `parse_action_results` looks its keys up case-sensitively: a record
with no key spelled exactly `"Identifier"` uses the identifier
`"(unknown)"`, and a record with none of the exact keys `"Identifier"`,
`"Success"`, `"Error"` — for example `{"identifier": "c1", "success": true}`
— is classified as a failure `("(unknown)", "Unknown error")`. -/
theorem parse_action_results_case_sensitive :
    (∀ rec : PyRecord, (∀ kv ∈ rec, kv.1 ≠ "Identifier") →
      identifierOf rec = "(unknown)")
    ∧ (∀ rec : PyRecord,
        (∀ kv ∈ rec, kv.1 ≠ "Identifier" ∧ kv.1 ≠ "Success" ∧ kv.1 ≠ "Error") →
        parse_action_results [rec] = ([], [("(unknown)", "Unknown error")]))
    ∧ parse_action_results [[("identifier", JValue.jstr "c1"), ("success", JValue.jbool true)]]
        = ([], [("(unknown)", "Unknown error")]) := by
  refine ⟨?_, ?_, rfl⟩
  · intro rec h
    rw [identifierOf, dictGet_eq_none rec "Identifier" h]
    rfl
  · intro rec h
    have hid := dictGet_eq_none rec "Identifier" (fun kv hkv => (h kv hkv).1)
    have hsc := dictGet_eq_none rec "Success" (fun kv hkv => (h kv hkv).2.1)
    have herr := dictGet_eq_none rec "Error" (fun kv hkv => (h kv hkv).2.2)
    simp [parse_action_results, arStep, successOf, pyTruthyOpt, hsc, identifierOf, hid,
      errorOf, herr, pyOr, dictInsert, pyStr, pyRepr]

/-- Witness for C10 at concrete lowercase-keyed records. -/
theorem parse_action_results_case_sensitive_witness :
    identifierOf [("identifier", JValue.jstr "c1")] = "(unknown)"
    ∧ parse_action_results [[("id", JValue.jstr "x")]]
        = ([], [("(unknown)", "Unknown error")]) :=
  ⟨parse_action_results_case_sensitive.1 _ (by decide),
   parse_action_results_case_sensitive.2.1 _ (by decide)⟩

/-- C3: `parse_campaigns_json` looks `name`/`state`/`type` up
case-insensitively (a row depends only on the lowercased-key view of its
record), maps integer states and types through the fixed tables, passes
out-of-table integers and non-integer values through as their string form,
and on the spec's two examples yields `State "Running"`, `Type "Outbound"`
and `State "9"`, `Type "custom"`. -/
theorem parse_campaigns_json_lookup :
    (∀ r1 r2 : PyRecord, lowerKeys r1 = lowerKeys r2 → campaignRow r1 = campaignRow r2)
    ∧ (∀ (rec : PyRecord) (s : String),
        dictGet (lowerKeys rec) "state" = some (JValue.jstr s) → (campaignRow rec).State = s)
    ∧ (∀ (rec : PyRecord) (n : Int),
        dictGet (lowerKeys rec) "state" = some (JValue.jint n) →
        n ≠ 0 → n ≠ 1 → n ≠ 2 → n ≠ 3 → (campaignRow rec).State = toString n)
    ∧ (∀ (rec : PyRecord) (s : String),
        dictGet (lowerKeys rec) "type" = some (JValue.jstr s) → (campaignRow rec).CType = s)
    ∧ (∀ (rec : PyRecord) (n : Int),
        dictGet (lowerKeys rec) "type" = some (JValue.jint n) →
        n ≠ 0 → n ≠ 1 → n ≠ 2 → (campaignRow rec).CType = toString n)
    ∧ parse_campaigns_json
        [[("Name", JValue.jstr "X"), ("State", JValue.jint 2), ("Type", JValue.jint 1)]]
      = [⟨JValue.jstr "X", "Running", "Outbound"⟩]
    ∧ parse_campaigns_json
        [[("name", JValue.jstr "Y"), ("state", JValue.jint 9), ("type", JValue.jstr "custom")]]
      = [⟨JValue.jstr "Y", "9", "custom"⟩] := by
  refine ⟨?_, ?_, ?_, ?_, ?_, rfl, rfl⟩
  · intro r1 r2 h
    simp [campaignRow, h]
  · intro rec s h
    simp [campaignRow, h, intMapGet, pyStrOpt, pyStr]
  · intro rec n h h0 h1 h2 h3
    have e0 : ((0 : Int) == n) = false := beq_eq_false_iff_ne.mpr (fun he => h0 he.symm)
    have e1 : ((1 : Int) == n) = false := beq_eq_false_iff_ne.mpr (fun he => h1 he.symm)
    have e2 : ((2 : Int) == n) = false := beq_eq_false_iff_ne.mpr (fun he => h2 he.symm)
    have e3 : ((3 : Int) == n) = false := beq_eq_false_iff_ne.mpr (fun he => h3 he.symm)
    simp [campaignRow, h, intMapGet, STATE_MAP, List.find?, e0, e1, e2, e3,
      pyStrOpt, pyStr, pyRepr]
  · intro rec s h
    simp [campaignRow, h, intMapGet, pyStrOpt, pyStr]
  · intro rec n h h0 h1 h2
    have e0 : ((0 : Int) == n) = false := beq_eq_false_iff_ne.mpr (fun he => h0 he.symm)
    have e1 : ((1 : Int) == n) = false := beq_eq_false_iff_ne.mpr (fun he => h1 he.symm)
    have e2 : ((2 : Int) == n) = false := beq_eq_false_iff_ne.mpr (fun he => h2 he.symm)
    simp [campaignRow, h, intMapGet, TYPE_MAP, List.find?, e0, e1, e2,
      pyStrOpt, pyStr, pyRepr]

/-- Witness for C3 at concrete records: case-insensitivity of the lookup and
string-form passthrough of unmapped values. -/
theorem parse_campaigns_json_lookup_witness :
    campaignRow [("NAME", JValue.jstr "Z")] = campaignRow [("name", JValue.jstr "Z")]
    ∧ (campaignRow [("State", JValue.jstr "foo")]).State = "foo"
    ∧ (campaignRow [("state", JValue.jint 9)]).State = "9"
    ∧ (campaignRow [("Type", JValue.jstr "custom")]).CType = "custom"
    ∧ (campaignRow [("type", JValue.jint 7)]).CType = "7" :=
  ⟨parse_campaigns_json_lookup.1 _ _ rfl,
   parse_campaigns_json_lookup.2.1 _ "foo" rfl,
   parse_campaigns_json_lookup.2.2.1 _ 9 rfl (by decide) (by decide) (by decide) (by decide),
   parse_campaigns_json_lookup.2.2.2.1 _ "custom" rfl,
   parse_campaigns_json_lookup.2.2.2.2.1 _ 7 rfl (by decide) (by decide) (by decide)⟩

/-- C4: on an input whose records all carry a string `"name"` value (the
`ListRecord` contract), `parse_domain_lists_json` succeeds with rows that
are a permutation of the input sorted ascending by name; the empty input
yields an empty frame that still has exactly the columns
`["name", "size"]`; and the spec's two-record example comes back ordered
A then B. -/
theorem parse_domain_lists_json_sorted (records : List PyRecord)
    (h : ∀ r ∈ records, (nameKey r).isSome = true) :
    (∃ df : DFrame,
      parse_domain_lists_json records = some df
      ∧ df.rows.Perm records
      ∧ List.Pairwise (fun a b => recNameLe a b = true) df.rows)
    ∧ parse_domain_lists_json [] = some ⟨["name", "size"], []⟩
    ∧ parse_domain_lists_json
        [[("name", JValue.jstr "B"), ("size", JValue.jint 1)],
         [("name", JValue.jstr "A"), ("size", JValue.jint 2)]]
      = some ⟨["name", "size"],
          [[("name", JValue.jstr "A"), ("size", JValue.jint 2)],
           [("name", JValue.jstr "B"), ("size", JValue.jint 1)]]⟩ := by
  refine ⟨?_, rfl, rfl⟩
  by_cases he : records.isEmpty = true
  · refine ⟨⟨["name", "size"], []⟩, ?_, ?_, List.Pairwise.nil⟩
    · unfold parse_domain_lists_json
      rw [if_pos he]
    · have hnil : records = [] := List.isEmpty_iff.mp he
      rw [hnil]
  · have hall : (records.all (fun r => (nameKey r).isSome)) = true := List.all_eq_true.mpr h
    refine ⟨⟨unionKeys records, sortLe recNameLe records⟩, ?_, ?_, ?_⟩
    · unfold parse_domain_lists_json
      rw [if_neg he, if_pos hall]
    · exact sortLe_perm recNameLe records
    · exact sortLe_pairwise recNameLe
        (fun a b c hab hbc => lexLe_trans _ _ _ hab hbc)
        (fun a b => lexLe_total _ _)
        records

/-- Witness for C4 at the spec's two-record example. -/
theorem parse_domain_lists_json_sorted_witness :
    ∃ df : DFrame,
      parse_domain_lists_json
        [[("name", JValue.jstr "B"), ("size", JValue.jint 1)],
         [("name", JValue.jstr "A"), ("size", JValue.jint 2)]] = some df
      ∧ df.rows.Perm
          [[("name", JValue.jstr "B"), ("size", JValue.jint 1)],
           [("name", JValue.jstr "A"), ("size", JValue.jint 2)]]
      ∧ List.Pairwise (fun a b => recNameLe a b = true) df.rows :=
  (parse_domain_lists_json_sorted
    [[("name", JValue.jstr "B"), ("size", JValue.jint 1)],
     [("name", JValue.jstr "A"), ("size", JValue.jint 2)]] (by decide)).1

/-- C5: the generated authentication preamble embeds the credentials with
every single quote doubled exactly once (quote count doubles, applied at
insertion), and each credential occupies a syntactically single
single-quoted literal: the PowerShell single-quote scanner started at the
password (resp. username) literal consumes exactly the escaped credential,
recovers the original text, and stops at the template's closing quote. -/
theorem run_powershell_escaping (username password command : String) :
    ps_script username password command
      = tplA.data ++ escQuotes password.data ++ tplB.data
          ++ escQuotes username.data ++ tplC.data ++ command.data ++ ['\n']
    ∧ (escQuotes password.data).count '\'' = 2 * password.data.count '\''
    ∧ (escQuotes username.data).count '\'' = 2 * username.data.count '\''
    ∧ sqBody (escQuotes password.data ++ tplB.data ++ escQuotes username.data
        ++ tplC.data ++ command.data ++ ['\n'])
      = some (password.data, tplB.data.tail ++ escQuotes username.data
          ++ tplC.data ++ command.data ++ ['\n'])
    ∧ sqBody (escQuotes username.data ++ tplC.data ++ command.data ++ ['\n'])
      = some (username.data, tplC.data.tail ++ command.data ++ ['\n']) := by
  refine ⟨?_, escQuotes_count_quote password.data, escQuotes_count_quote username.data, ?_, ?_⟩
  · simp [ps_script, ps_escape_some_data]
  · have hB : tplB.data = '\'' :: ' ' :: tplB.data.tail.tail := rfl
    rw [hB]
    simp only [List.append_assoc, List.cons_append, List.tail_cons]
    exact sqBody_escQuotes password.data ' ' _ (by decide)
  · have hC : tplC.data = '\'' :: ',' :: tplC.data.tail.tail := rfl
    rw [hC]
    simp only [List.append_assoc, List.cons_append, List.tail_cons]
    exact sqBody_escQuotes username.data ',' _ (by decide)
